import Mathlib

/-!
# Verification of the ipy_oxDNA simulation scheduling core

Shallow embedding of the scheduling-relevant code of
`src/scr/oxdna_simulation.py` (class `SimulationManager` and the parts of
`Simulation`/`Input` that the scheduler touches), together with proofs of
the specification's claims about it.

Modelling conventions:
* Python strings are Lean `String`s; `str.split()` (whitespace split) and
  `str.split('\n')` are re-implemented structurally over the character list
  so that concrete instances evaluate inside the kernel.
* Python `int(...)` on the nvidia-smi numeric field is modelled as a
  non-negative decimal parser returning `Option Nat`.
* Raised exceptions are `Except`/`Option` results; an exception value
  records which Python exception the source would raise.
* Device-memory quantities are `Nat`s: the scheduler only ever compares
  them (`free < 3 * mem`), so the numeric torsor is irrelevant.
* The process-level concurrency of `worker_manager`/`worker_job` is a
  small-step transition relation `Step` over an explicit scheduler state,
  with one controller (the `worker_manager` loop) and one worker per
  spawned job, interleaving nondeterministically.
-/

namespace OxdnaScheduling

/-! ## Python string helpers -/

/-- Split a character list at `'\n'`, keeping empty pieces: the behaviour of
Python `str.split('\n')`. -/
def splitNlAux : List Char → List Char → List (List Char)
  | [], cur => [cur.reverse]
  | c :: cs, cur =>
    if c = '\n' then cur.reverse :: splitNlAux cs []
    else splitNlAux cs (c :: cur)

/-- Python `s.split('\n')`. -/
def splitNl (s : String) : List String :=
  (splitNlAux s.data []).map String.mk

/-- Split a character list on runs of whitespace, discarding empty pieces:
the behaviour of Python `str.split()` with no argument. -/
def splitWsAux : List Char → List Char → List (List Char)
  | [], [] => []
  | [], cur => [cur.reverse]
  | c :: cs, cur =>
    if c.isWhitespace then
      match cur with
      | [] => splitWsAux cs []
      | _ :: _ => cur.reverse :: splitWsAux cs []
    else splitWsAux cs (c :: cur)

/-- Python `s.split()` (whitespace split, empty pieces dropped). -/
def splitWs (s : String) : List String :=
  (splitWsAux s.data []).map String.mk

/-- Decimal digit accumulator for `parseNat`. -/
def parseNatAux : List Char → Nat → Option Nat
  | [], acc => some acc
  | c :: cs, acc =>
    if c.isDigit then parseNatAux cs (acc * 10 + (c.toNat - 48))
    else none

/-- Python `int(s)` restricted to non-negative decimal literals (the form the
nvidia-smi free-memory field takes); anything else raises `ValueError`,
modelled as `none`. -/
def parseNat (s : String) : Option Nat :=
  match s.data with
  | [] => none
  | _ :: _ => parseNatAux s.data 0

/-- Python `list.index(a)` / `list.max` helpers.  `listIndex a l` is
`some i` for the first index `i` with `l[i] = a`, `none` when `a ∉ l`
(where Python raises `ValueError`). -/
def listIndex {α : Type} [DecidableEq α] (a : α) : List α → Option Nat
  | [] => none
  | b :: l => if b = a then some 0 else (listIndex a l).map (· + 1)

/-- Python `max(l)`; `none` on the empty list (Python raises `ValueError`). -/
def listMax : List Nat → Option Nat
  | [] => none
  | x :: xs =>
    match listMax xs with
    | none => some x
    | some m => some (if x ≤ m then m else x)

/-! ## `SimulationManager.gpu_resources`

```python
def gpu_resources(self):
    output_to_list = lambda x: x.decode('ascii').split('\n')[:-1]
    COMMAND = "nvidia-smi --query-gpu=memory.free --format=csv"
    try:
        memory_free_info = output_to_list(sp.check_output(COMMAND.split(),stderr=sp.STDOUT))[1:]
    except sp.CalledProcessError as e:
        raise RuntimeError(...)
    avalible_memory = [int(x.split()[0]) for i, x in enumerate(memory_free_info)]
    gpu_most_aval_mem_free = max(avalible_memory)
    gpu_most_aval_mem_free_idx = avalible_memory.index(gpu_most_aval_mem_free)
    return np.round(gpu_most_aval_mem_free, 2), gpu_most_aval_mem_free_idx
```

The external command result is an `Except Nat String`: `.error code` models
`sp.CalledProcessError` with that return code, `.ok raw` the decoded stdout.
`np.round` on the parsed integer value is the identity and is omitted. -/

/-- A raised Python exception of the scheduling core. -/
inductive PyErr : Type
  | runtimeError (code : Nat)
  | valueError
deriving DecidableEq, Repr

/-- `output_to_list`: decode, split on newlines, drop the final piece. -/
def output_to_list (raw : String) : List String :=
  (splitNl raw).dropLast

/-- Parse one nvidia-smi data line: `int(x.split()[0])`. -/
def parseMemLine (x : String) : Option Nat :=
  (splitWs x).head?.bind parseNat

/-- `SimulationManager.gpu_resources`, as a function of the external
command's outcome. -/
def gpu_resources (cmdResult : Except Nat String) : Except PyErr (Nat × Nat) :=
  match cmdResult with
  | .error code => .error (.runtimeError code)
  | .ok raw =>
    let memory_free_info := (output_to_list raw).drop 1
    match memory_free_info.mapM parseMemLine with
    | none => .error .valueError
    | some avalible_memory =>
      match listMax avalible_memory with
      | none => .error .valueError
      | some gpu_most_aval_mem_free =>
        match listIndex gpu_most_aval_mem_free avalible_memory with
        | none => .error .valueError
        | some idx => .ok (gpu_most_aval_mem_free, idx)

/-! ## `SimulationManager.get_sim_mem`

```python
def get_sim_mem(self, sim, gpu_idx):
    steps = sim.input.input['steps']
    last_conf_file = sim.input.input['lastconf_file']
    sim.input_file({'lastconf_file':'temp', 'steps':'0'})
    sim.oxpy_run.run(subprocess=False, verbose=False, log=False)
    sim.input_file({'lastconf_file':f'{last_conf_file}', 'steps':f'{steps}'})
    mem_get = True
    err_split = sim.oxpy_run.sim_output.out[1].split()
    mem = err_split.index('memory:')
    sim_mem = err_split[mem + 1]
    os.remove('./temp')
    return float(sim_mem)
```

The job's mutable input dictionary is modelled by the fields the scheduler
reads or writes (`steps`, `lastconf_file`, `CUDA_device`); the external
engine is a parameter `engine : SimInput → String` producing the captured
stderr text (`sim_output.out[1]`) as a function of the persisted input, and
its only file-system effect relevant here is writing the configured
last-conf artifact.  The returned footprint is the extracted token (the
source applies `float` to it; two equal tokens parse to equal floats). -/

/-- The persisted oxDNA input parameters the scheduler touches. -/
structure SimInput : Type where
  steps : String
  lastconf_file : String
  CUDA_device : String
deriving DecidableEq, Repr

/-- A job's scheduler-visible state: persisted input parameters plus the
artifact files present in its directory. -/
structure SimState : Type where
  input : SimInput
  files : List String
deriving DecidableEq, Repr

/-- The input configuration the probe hands to the engine: steps overridden
to zero, last-conf output redirected to the throwaway name `temp`. -/
def probeInput (inp : SimInput) : SimInput :=
  { inp with lastconf_file := "temp", steps := "0" }

/-- `SimulationManager.get_sim_mem`.  Returns the state of the job after the
probe together with `some footprint`, or `none` when the marker scan fails
(Python `ValueError` from `err_split.index('memory:')`, or `IndexError`
when the marker is the final token); in the failure case the returned state
is the state at the moment the exception is raised. -/
def get_sim_mem (engine : SimInput → String) (s : SimState) : SimState × Option String :=
  let steps := s.input.steps
  let last_conf_file := s.input.lastconf_file
  let inp1 : SimInput := { s.input with lastconf_file := "temp", steps := "0" }
  let err := engine inp1
  let files1 := s.files.insert inp1.lastconf_file
  let inp2 : SimInput := { inp1 with lastconf_file := last_conf_file, steps := steps }
  let err_split := splitWs err
  match listIndex "memory:" err_split with
  | none => (⟨inp2, files1⟩, none)
  | some memIdx =>
    match err_split.get? (memIdx + 1) with
    | none => (⟨inp2, files1⟩, none)
    | some sim_mem => (⟨inp2, files1.erase "temp"⟩, some sim_mem)

/-- `SimulationManager.worker_job`, first phase: the worker probes its own
job and publishes the footprint.  There is no `try`/`except` anywhere in
`worker_job`, so a probe fault propagates out (`none`): the worker neither
publishes nor runs nor releases its slot. -/
def worker_job (engine : SimInput → String) (s : SimState) : Option (SimState × String) :=
  match get_sim_mem engine s with
  | (s', some v) => some (s', v)
  | (_, none) => none

/-! ## The scheduling core as a transition system

`SimulationManager.__init__` builds three shared queues:

```python
self.process_queue = self.manager.Queue(self.n_processes)   # slot pool, capacity N
self.sim_queue = self.manager.Queue()                       # job FIFO, unbounded
self.gpu_memory_queue = self.manager.Queue(1)               # memory mailbox, capacity 1
```

and `worker_manager` runs

```python
while not self.sim_queue.empty():
    self.process_queue.put('Simulation worker finished')    # blocks at capacity
    sim = self.sim_queue.get()
    free_gpu_memory, gpu_idx = self.gpu_resources()         # may raise RuntimeError
    sim.input_file({'CUDA_device': str(gpu_idx)})
    p = mp.Process(target=self.worker_job, args=(sim, gpu_idx)); p.start()
    sim_mem = self.gpu_memory_queue.get()                   # blocks for the probe
    if free_gpu_memory < (3 * sim_mem):
        wait_for_gpu_memory = True
        while wait_for_gpu_memory == True:
            if free_gpu_memory < (3 * sim_mem):
                free_gpu_memory, gpu_idx = self.gpu_resources()
                sleep(5)
            else:
                wait_for_gpu_memory = False
while not self.process_queue.empty():
    sleep(1)
print('All queued simulations finished')
```

while each spawned `worker_job` probes, publishes, runs, then releases:

```python
def worker_job(self, sim, gpu_idx):
    sim_mem = self.get_sim_mem(sim, gpu_idx)
    self.gpu_memory_queue.put(sim_mem)
    sim.oxpy_run.run(subprocess=False)
    self.process_queue.get()
```

Jobs are identified by `Nat` ids; `Config.mem j` is the footprint job `j`'s
probe measures (the engine is deterministic per configuration).  Device
readings are environment-chosen step parameters, so every possible
`gpu_resources` outcome (including failure) is a transition.  `clock`
accumulates the literal `sleep` durations (5 in the headroom wait loop, 1
per drain poll). -/

/-- Execution phase of one spawned `worker_job` process. -/
inductive WPhase : Type
  | probing
  | running
  | done
deriving DecidableEq, Repr

/-- One spawned worker: its job id, the `CUDA_device` index bound to the job
just before the spawn, and its execution phase. -/
structure Worker : Type where
  job : Nat
  device : Nat
  phase : WPhase
deriving DecidableEq, Repr

/-- Program counter of the `worker_manager` loop. -/
inductive CtrlPhase : Type
  | checkQueue
  | needJob
  | query (j : Nat)
  | spawnW (j idx free : Nat)
  | awaitMem (free : Nat)
  | waiting (free m : Nat)
  | draining
  | finished
  | aborted (leaked : Bool) (lost : List Nat)
deriving DecidableEq, Repr

/-- System parameters: `N` = `n_processes` (the `process_queue` capacity)
and `mem` = probed footprint per job id. -/
structure Config : Type where
  N : Nat
  mem : Nat → Nat

/-- Global state of the scheduling core. -/
structure MState : Type where
  queue : List Nat
  enqueued : List Nat
  tokens : Nat
  mailbox : Option Nat
  workers : List Worker
  ctrl : CtrlPhase
  clock : Nat
deriving Repr

/-- The interleaved small-step semantics of the scheduling core. -/
inductive Step (cfg : Config) : MState → MState → Prop
  /-- `queue_sim`: the caller appends a job to `sim_queue` (any time). -/
  | enqueue (s : MState) (j : Nat) :
      Step cfg s { s with queue := s.queue ++ [j], enqueued := s.enqueued ++ [j] }
  /-- The `while not self.sim_queue.empty()` test fails: enter the drain loop. -/
  | toDrain (s : MState) (h : s.ctrl = .checkQueue) (hq : s.queue = []) :
      Step cfg s { s with ctrl := .draining }
  /-- `process_queue.put(...)`: acquire a slot token; blocks at capacity `N`. -/
  | acquire (s : MState) (h : s.ctrl = .checkQueue) (hq : s.queue ≠ []) (ht : s.tokens < cfg.N) :
      Step cfg s { s with tokens := s.tokens + 1, ctrl := .needJob }
  /-- `sim = self.sim_queue.get()`: dequeue the oldest job. -/
  | getJob (s : MState) (j : Nat) (rest : List Nat) (h : s.ctrl = .needJob)
      (hq : s.queue = j :: rest) :
      Step cfg s { s with queue := rest, ctrl := .query j }
  /-- `gpu_resources()` succeeds with reading `(free, idx)`. -/
  | queryOk (s : MState) (j free idx : Nat) (h : s.ctrl = .query j) :
      Step cfg s { s with ctrl := .spawnW j idx free }
  /-- `gpu_resources()` raises: the `RuntimeError` propagates out of the
  `worker_manager` loop, with the just-acquired token and the dequeued job lost. -/
  | queryFail (s : MState) (j : Nat) (h : s.ctrl = .query j) :
      Step cfg s { s with ctrl := .aborted true [j] }
  /-- `sim.input_file({'CUDA_device': str(gpu_idx)})` then `p.start()`:
  bind the device to the job and spawn its worker. -/
  | spawnWorker (s : MState) (j idx free : Nat) (h : s.ctrl = .spawnW j idx free) :
      Step cfg s { s with workers := s.workers ++ [⟨j, idx, .probing⟩], ctrl := .awaitMem free }
  /-- `gpu_memory_queue.put(sim_mem)` in `worker_job`: a probing worker
  publishes its footprint into the empty single-slot mailbox. -/
  | publish (s : MState) (k : Nat) (hk : k < s.workers.length)
      (hp : (s.workers.get ⟨k, hk⟩).phase = .probing) (hm : s.mailbox = none) :
      Step cfg s { s with
                   mailbox := some (cfg.mem (s.workers.get ⟨k, hk⟩).job),
                   workers := s.workers.set k
                     ⟨(s.workers.get ⟨k, hk⟩).job, (s.workers.get ⟨k, hk⟩).device, .running⟩ }
  /-- `sim_mem = self.gpu_memory_queue.get()` followed by the headroom test. -/
  | receive (s : MState) (free m : Nat) (h : s.ctrl = .awaitMem free) (hm : s.mailbox = some m) :
      Step cfg s { s with
                   mailbox := none,
                   ctrl := if free < 3 * m then .waiting free m else .checkQueue }
  /-- Wait-loop iteration: `gpu_resources()` re-query succeeds (the fresh
  index is discarded) then `sleep(5)`. -/
  | requeryOk (s : MState) (free m free2 idx2 : Nat) (h : s.ctrl = .waiting free m)
      (hlt : free < 3 * m) :
      Step cfg s { s with ctrl := .waiting free2 m, clock := s.clock + 5 }
  /-- Wait-loop iteration: the re-query raises before the `sleep`. -/
  | requeryFail (s : MState) (free m : Nat) (h : s.ctrl = .waiting free m)
      (hlt : free < 3 * m) :
      Step cfg s { s with ctrl := .aborted false [] }
  /-- `wait_for_gpu_memory = False`: the last reading shows headroom. -/
  | waitDone (s : MState) (free m : Nat) (h : s.ctrl = .waiting free m)
      (hge : ¬ free < 3 * m) :
      Step cfg s { s with ctrl := .checkQueue }
  /-- `self.process_queue.get()` at the end of `worker_job`: a worker whose
  run finished releases its slot token. -/
  | release (s : MState) (k : Nat) (hk : k < s.workers.length)
      (hp : (s.workers.get ⟨k, hk⟩).phase = .running) (ht : 0 < s.tokens) :
      Step cfg s { s with
                   tokens := s.tokens - 1,
                   workers := s.workers.set k
                     ⟨(s.workers.get ⟨k, hk⟩).job, (s.workers.get ⟨k, hk⟩).device, .done⟩ }
  /-- `while not self.process_queue.empty(): sleep(1)`: one drain poll. -/
  | drainPoll (s : MState) (h : s.ctrl = .draining) (ht : 0 < s.tokens) :
      Step cfg s { s with clock := s.clock + 1 }
  /-- The drain test sees an empty `process_queue`:
  `print('All queued simulations finished')`. -/
  | drainDone (s : MState) (h : s.ctrl = .draining) (ht : s.tokens = 0) :
      Step cfg s { s with ctrl := .finished }

/-- Finite execution paths of the scheduling core. -/
inductive Path (cfg : Config) : MState → MState → Prop
  | refl (s : MState) : Path cfg s s
  | tail {s t u : MState} : Path cfg s t → Step cfg t u → Path cfg s u

/-- The state right after `SimulationManager.__init__` plus the start of
`worker_manager`. -/
def init : MState :=
  { queue := [], enqueued := [], tokens := 0, mailbox := none,
    workers := [], ctrl := .checkQueue, clock := 0 }

/-- States the scheduling core can actually be in. -/
def Reachable (cfg : Config) (s : MState) : Prop := Path cfg init s

/-- A worker that has not yet released its slot token. -/
def WPhase.isActive : WPhase → Bool
  | .done => false
  | _ => true

/-- Number of spawned workers still holding a slot token. -/
def runningCount (ws : List Worker) : Nat :=
  ws.countP (fun w => w.phase.isActive)

/-- Slot tokens held by the controller itself: one between
`process_queue.put` and the spawn of the corresponding worker, and the one
stranded in `process_queue` when `gpu_resources` raises mid-iteration. -/
def ctrlPending : CtrlPhase → Nat
  | .needJob => 1
  | .query _ => 1
  | .spawnW _ _ _ => 1
  | .aborted true _ => 1
  | _ => 0

/-- The job the controller has dequeued but not yet spawned (or dropped on
abort). -/
def ctrlHeld : CtrlPhase → List Nat
  | .query j => [j]
  | .spawnW j _ _ => [j]
  | .aborted _ lost => lost
  | _ => []

/-- No worker in the list is still in its probe phase. -/
def noProbing (ws : List Worker) : Prop :=
  ∀ i (hi : i < ws.length), (ws.get ⟨i, hi⟩).phase ≠ .probing

/-- Every worker except possibly the most recently spawned one has finished
its probe phase. -/
def frontNoProbing (ws : List Worker) : Prop :=
  ∀ i (hi : i + 1 < ws.length), (ws.get ⟨i, Nat.lt_of_succ_lt hi⟩).phase ≠ .probing

/-- `some free` when the controller is blocked in `gpu_memory_queue.get()`. -/
def isAwait : CtrlPhase → Option Nat
  | .awaitMem free => some free
  | _ => none

/-- Mailbox protocol shape: the single-slot `gpu_memory_queue` is empty
except between a worker's publish and the controller's matching receive,
and while the controller blocks in `gpu_memory_queue.get()` the only
possibly-unpublished worker is the one it just spawned (the last one), so
the value the controller receives is that worker's probed footprint. -/
def MboxShape (cfg : Config) (aw : Option Nat) (mb : Option Nat) (ws : List Worker) : Prop :=
  match aw with
  | some _ =>
      (mb = none ∧
        (∃ h : 0 < ws.length, (ws.get ⟨ws.length - 1, by omega⟩).phase = .probing) ∧
        frontNoProbing ws) ∨
      (∃ h : 0 < ws.length,
        mb = some (cfg.mem ((ws.get ⟨ws.length - 1, by omega⟩).job)) ∧ noProbing ws)
  | none => mb = none ∧ noProbing ws

/-- Mailbox protocol invariant of a scheduler state. -/
def MboxInv (cfg : Config) (s : MState) : Prop :=
  MboxShape cfg (isAwait s.ctrl) s.mailbox s.workers

/-- The inductive invariant of the scheduling core. -/
structure Inv (cfg : Config) (s : MState) : Prop where
  tok_le : s.tokens ≤ cfg.N
  tok_eq : s.tokens = runningCount s.workers + ctrlPending s.ctrl
  fifo : s.workers.map Worker.job ++ (ctrlHeld s.ctrl ++ s.queue) = s.enqueued
  fin_tok : s.ctrl = .finished → s.tokens = 0
  mbox : MboxInv cfg s

/-! ## Demo inputs used by the witnesses -/

/-- A demo engine whose captured stderr contains the `memory:` marker. -/
def engMarker : SimInput → String := fun _ => "mismatched\nmemory: 912 MB"

/-- A demo engine whose captured stderr lacks the `memory:` marker. -/
def engNoMarker : SimInput → String := fun _ => "confGenerator caught an error"

/-- A demo job state. -/
def sim0 : SimState :=
  ⟨⟨"1000000", "last_conf.dat", "0"⟩, ["last_conf.dat", "trajectory.dat"]⟩

/-- Demo configuration: two worker slots, every job's probe measures 5000
memory units (the spec's single-job headroom scenario: free memory 9000,
probed footprint 5000, 9000 < 3 × 5000). -/
def demoCfg : Config := ⟨2, fun _ => 5000⟩

/-- Demo trace: job 7 is enqueued. -/
def demo1 : MState := { init with queue := [7], enqueued := [7] }

/-- Demo trace: the controller acquires a slot token. -/
def demo2 : MState := { demo1 with tokens := 1, ctrl := .needJob }

/-- Demo trace: job 7 is dequeued. -/
def demo3 : MState := { demo2 with queue := [], ctrl := .query 7 }

/-- Demo trace: `gpu_resources` reported `(9000, 0)`. -/
def demo4 : MState := { demo3 with ctrl := .spawnW 7 0 9000 }

/-- Demo trace: the worker for job 7 is spawned on device 0. -/
def demo5 : MState := { demo4 with workers := [⟨7, 0, .probing⟩], ctrl := .awaitMem 9000 }

/-- Demo trace: the worker published its probed footprint 5000. -/
def demo6 : MState := { demo5 with mailbox := some 5000, workers := [⟨7, 0, .running⟩] }

/-- Demo trace: the controller received 5000 and, as 9000 < 3 × 5000,
entered the headroom wait loop. -/
def demo7 : MState := { demo6 with mailbox := none, ctrl := .waiting 9000 5000 }

/-- Demo trace: a re-query reported 20000 and the controller slept 5. -/
def demo8 : MState := { demo7 with ctrl := .waiting 20000 5000, clock := 5 }

/-- Demo trace: 3 × 5000 ≤ 20000, so the wait loop exits. -/
def demo9 : MState := { demo8 with ctrl := .checkQueue }

/-- Demo trace: the worker finished its run and released its token. -/
def demo10 : MState := { demo9 with tokens := 0, workers := [⟨7, 0, .done⟩] }

/-- Demo trace: the queue is empty, so the controller starts draining. -/
def demo11 : MState := { demo10 with ctrl := .draining }

/-- A state of the admission loop after a `gpu_resources` failure. -/
def demoAborted : MState := { demo3 with ctrl := .aborted true [7] }

/-! ## List helper lemmas -/

theorem set_get_self {α : Type} (l : List α) (k : Nat) (hk : k < l.length) :
    l.set k (l.get ⟨k, hk⟩) = l := by
  apply List.ext_getElem (by simp)
  intro i h1 h2
  simp only [List.getElem_set]
  split
  · next heq => subst heq; rfl
  · rfl

theorem map_set_phase {α : Type} (f : Worker → α)
    (hf : ∀ w p, f ⟨w.job, w.device, p⟩ = f w)
    (ws : List Worker) (k : Nat) (hk : k < ws.length) (p : WPhase) :
    (ws.set k ⟨(ws.get ⟨k, hk⟩).job, (ws.get ⟨k, hk⟩).device, p⟩).map f = ws.map f := by
  rw [List.map_set, hf]
  have hg : f (ws.get ⟨k, hk⟩) = (ws.map f).get ⟨k, by simpa using hk⟩ := by
    simp
  rw [hg, set_get_self]

theorem countP_set_same (p : Worker → Bool) (ws : List Worker) (k : Nat)
    (hk : k < ws.length) (v : Worker) (hv : p v = p (ws.get ⟨k, hk⟩)) :
    (ws.set k v).countP p = ws.countP p := by
  have hcount : 0 < ws.countP p ∨ p (ws.get ⟨k, hk⟩) = false := by
    by_cases hp : p (ws.get ⟨k, hk⟩) = true
    · left
      refine List.countP_pos_iff.mpr ⟨ws.get ⟨k, hk⟩, ?_, hp⟩
      exact ws.get_mem k hk
    · right; simpa using hp
  rw [List.countP_set p ws k v hk, hv]
  simp only [List.get_eq_getElem] at *
  rcases hcount with h | h
  · by_cases hp : p ws[k] = true
    · simp only [hp, if_true]
      omega
    · simp [hp]
  · simp [h]

theorem countP_set_dec (p : Worker → Bool) (ws : List Worker) (k : Nat)
    (hk : k < ws.length) (v : Worker) (hold : p (ws.get ⟨k, hk⟩) = true)
    (hv : p v = false) :
    (ws.set k v).countP p + 1 = ws.countP p := by
  have hcount : 0 < ws.countP p := by
    refine List.countP_pos_iff.mpr ⟨ws.get ⟨k, hk⟩, ws.get_mem k hk, hold⟩
  rw [List.countP_set p ws k v hk]
  simp only [List.get_eq_getElem] at *
  simp [hold, hv]
  omega

theorem noProbing_of_set (ws : List Worker) (k : Nat) (v : Worker)
    (hv : v.phase ≠ .probing)
    (h : ∀ i (hi : i < ws.length), i ≠ k → (ws.get ⟨i, hi⟩).phase ≠ .probing) :
    noProbing (ws.set k v) := by
  intro i hi
  have hi' : i < ws.length := by simpa using hi
  simp only [List.get_eq_getElem, List.getElem_set]
  split
  · next heq => exact hv
  · next hne => exact h i hi' (fun hik => hne hik.symm)

theorem frontNoProbing_of_set (ws : List Worker) (k : Nat) (v : Worker)
    (hv : v.phase ≠ .probing) (hfront : frontNoProbing ws) :
    frontNoProbing (ws.set k v) := by
  intro i hi
  have hi' : i + 1 < ws.length := by simpa using hi
  simp only [List.get_eq_getElem, List.getElem_set]
  split
  · next heq => exact hv
  · next hne =>
    have := hfront i hi'
    simpa using this

theorem isAwait_eq_some {c : CtrlPhase} {free : Nat} (h : isAwait c = some free) :
    c = .awaitMem free := by
  cases c with
  | awaitMem a =>
    simp only [isAwait, Option.some_inj] at h
    rw [h]
  | checkQueue => exact nomatch h
  | needJob => exact nomatch h
  | query j => exact nomatch h
  | spawnW j idx f => exact nomatch h
  | waiting f m => exact nomatch h
  | draining => exact nomatch h
  | finished => exact nomatch h
  | aborted b lost => exact nomatch h

/-- The invariant holds at start-up. -/
theorem inv_init (cfg : Config) : Inv cfg init := by
  refine ⟨Nat.zero_le _, rfl, rfl, fun _ => rfl, ?_⟩
  exact ⟨rfl, fun i hi => by simp [init] at hi⟩

/-- The invariant is preserved by every step of the scheduling core. -/
theorem inv_step {cfg : Config} {s t : MState} (hinv : Inv cfg s) (hstep : Step cfg s t) :
    Inv cfg t := by
  obtain ⟨tok_le, tok_eq, fifo, fin_tok, mbox⟩ := hinv
  unfold MboxInv at mbox
  cases hstep with
  | enqueue j =>
    refine ⟨tok_le, tok_eq, ?_, fin_tok, mbox⟩
    rw [← fifo]
    simp [List.append_assoc]
  | toDrain h hq =>
    rw [h] at tok_eq fifo mbox
    refine ⟨tok_le, ?_, ?_, (fun habs => nomatch habs), mbox⟩
    · simpa [ctrlPending] using tok_eq
    · simpa [ctrlHeld] using fifo
  | acquire h hq ht =>
    rw [h] at tok_eq fifo mbox
    simp only [ctrlPending] at tok_eq
    refine ⟨ht, ?_, ?_, (fun habs => nomatch habs), mbox⟩
    · simp only [ctrlPending]
      omega
    · simpa [ctrlHeld] using fifo
  | getJob j rest h hq =>
    rw [h] at tok_eq fifo mbox
    rw [hq] at fifo
    refine ⟨tok_le, ?_, ?_, (fun habs => nomatch habs), mbox⟩
    · simpa [ctrlPending] using tok_eq
    · simpa [ctrlHeld] using fifo
  | queryOk j free idx h =>
    rw [h] at tok_eq fifo mbox
    refine ⟨tok_le, ?_, ?_, (fun habs => nomatch habs), mbox⟩
    · simpa [ctrlPending] using tok_eq
    · simpa [ctrlHeld] using fifo
  | queryFail j h =>
    rw [h] at tok_eq fifo mbox
    refine ⟨tok_le, ?_, ?_, (fun habs => nomatch habs), mbox⟩
    · simpa [ctrlPending] using tok_eq
    · simpa [ctrlHeld] using fifo
  | spawnWorker j idx free h =>
    rw [h] at tok_eq fifo mbox
    obtain ⟨hmb, hnp⟩ := mbox
    refine ⟨tok_le, ?_, ?_, (fun habs => nomatch habs), ?_⟩
    · simp only [ctrlPending] at tok_eq ⊢
      have hrc : runningCount (s.workers ++ [(⟨j, idx, .probing⟩ : Worker)]) =
          runningCount s.workers + 1 := by
        simp [runningCount, List.countP_append, List.countP_cons]
        rfl
      rw [hrc]
      omega
    · simp only [ctrlHeld] at fifo ⊢
      rw [← fifo]
      simp [List.append_assoc]
    · unfold MboxInv
      simp only [isAwait, MboxShape]
      left
      refine ⟨hmb, ⟨by simp, ?_⟩, ?_⟩
      · have hlen : (s.workers ++ [(⟨j, idx, .probing⟩ : Worker)]).length - 1 =
            s.workers.length := by simp
        simp only [List.get_eq_getElem, hlen]
        simp [List.getElem_concat_length]
      · intro i hi
        have hi' : i < s.workers.length := by
          simp only [List.length_append, List.length_cons, List.length_nil] at hi
          omega
        simp only [List.get_eq_getElem, List.getElem_append_left hi']
        exact hnp i hi'
  | publish k hk hp hm =>
    have hone : ∀ (v : Worker), runningCount (s.workers.set k v) =
        runningCount s.workers - (if (s.workers.get ⟨k, hk⟩).phase.isActive then 1 else 0) +
          (if v.phase.isActive then 1 else 0) := by
      intro v
      simp [runningCount, List.countP_set _ s.workers k v hk]
    cases haw : isAwait s.ctrl with
    | none =>
      rw [haw] at mbox
      obtain ⟨-, hnp⟩ := mbox
      exact absurd hp (hnp k hk)
    | some free =>
      rw [haw] at mbox
      rcases mbox with ⟨hmbnone, ⟨hpos, hlastp⟩, hfront⟩ | ⟨hpos, hmbsome, hnp⟩
      · -- the probing worker must be the most recently spawned one
        have hklast : k = s.workers.length - 1 := by
          by_contra hne
          have hk1 : k + 1 < s.workers.length := by omega
          exact hfront k hk1 hp
        have hact : (s.workers.get ⟨k, hk⟩).phase.isActive = true := by
          rw [hp]
          rfl
        have hpos1 : 0 < runningCount s.workers :=
          List.countP_pos_iff.mpr ⟨s.workers.get ⟨k, hk⟩, s.workers.get_mem k hk, hact⟩
        refine ⟨tok_le, ?_, ?_, ?_, ?_⟩
        · rw [tok_eq, hone]
          have hv : ((⟨(s.workers.get ⟨k, hk⟩).job, (s.workers.get ⟨k, hk⟩).device,
              WPhase.running⟩ : Worker)).phase.isActive = true := rfl
          rw [hact, hv]
          simp
          omega
        · rw [← fifo]
          have := map_set_phase Worker.job (fun w p => rfl) s.workers k hk .running
          rw [this]
        · intro habs
          have hctrl : s.ctrl = .awaitMem free := isAwait_eq_some haw
          rw [hctrl] at habs
          exact nomatch habs
        · unfold MboxInv
          rw [haw]
          simp only [MboxShape]
          right
          have hlen : (s.workers.set k { s.workers.get ⟨k, hk⟩ with phase := .running }).length =
              s.workers.length := by simp
          refine ⟨by simpa using hpos, ?_, ?_⟩
          · simp only [List.get_eq_getElem, List.length_set, List.getElem_set, ← hklast,
              if_pos rfl]
            simp
          · apply noProbing_of_set
            · simp
            · intro i hi hik
              have hi1 : i + 1 < s.workers.length := by omega
              exact hfront i hi1
      · exact absurd hp (hnp k hk)
  | receive free m h hm =>
    rw [h] at tok_eq fifo mbox fin_tok
    rcases mbox with ⟨hmbnone, -, -⟩ | ⟨hpos, hmbsome, hnp⟩
    · rw [hm] at hmbnone; exact nomatch hmbnone
    · by_cases hc : free < 3 * m
      · refine ⟨tok_le, ?_, ?_, ?_, ?_⟩
        · simpa [ctrlPending, hc] using tok_eq
        · simpa [ctrlHeld, hc] using fifo
        · simp only [hc, if_pos]
          intro habs
          exact nomatch habs
        · unfold MboxInv
          simp only [hc, if_pos, isAwait, MboxShape]
          exact ⟨trivial, hnp⟩
      · refine ⟨tok_le, ?_, ?_, ?_, ?_⟩
        · simpa [ctrlPending, hc] using tok_eq
        · simpa [ctrlHeld, hc] using fifo
        · simp only [hc, if_neg, if_false]
          intro habs
          exact nomatch habs
        · unfold MboxInv
          simp only [hc, if_neg, if_false, isAwait, MboxShape]
          exact ⟨trivial, hnp⟩
  | requeryOk free m free2 idx2 h hlt =>
    rw [h] at tok_eq fifo mbox
    refine ⟨tok_le, ?_, ?_, (fun habs => nomatch habs), mbox⟩
    · simpa [ctrlPending] using tok_eq
    · simpa [ctrlHeld] using fifo
  | requeryFail free m h hlt =>
    rw [h] at tok_eq fifo mbox
    refine ⟨tok_le, ?_, ?_, (fun habs => nomatch habs), mbox⟩
    · simpa [ctrlPending] using tok_eq
    · simpa [ctrlHeld] using fifo
  | waitDone free m h hge =>
    rw [h] at tok_eq fifo mbox
    refine ⟨tok_le, ?_, ?_, (fun habs => nomatch habs), mbox⟩
    · simpa [ctrlPending] using tok_eq
    · simpa [ctrlHeld] using fifo
  | release k hk hp ht =>
    have hp2 : (s.workers.get ⟨k, hk⟩).phase.isActive = true := by
      rw [hp]
      rfl
    have hdec : runningCount (s.workers.set k
          ⟨(s.workers.get ⟨k, hk⟩).job, (s.workers.get ⟨k, hk⟩).device, .done⟩) + 1 =
        runningCount s.workers :=
      countP_set_dec (fun w => w.phase.isActive) s.workers k hk
        ⟨(s.workers.get ⟨k, hk⟩).job, (s.workers.get ⟨k, hk⟩).device, .done⟩ hp2 rfl
    refine ⟨Nat.le_trans (Nat.sub_le _ _) tok_le, ?_, ?_, ?_, ?_⟩
    · show s.tokens - 1 = runningCount (s.workers.set k
          ⟨(s.workers.get ⟨k, hk⟩).job, (s.workers.get ⟨k, hk⟩).device, .done⟩) +
        ctrlPending s.ctrl
      omega
    · rw [← fifo]
      have := map_set_phase Worker.job (fun w p => rfl) s.workers k hk .done
      rw [this]
    · intro habs
      have h0 := fin_tok habs
      show s.tokens - 1 = 0
      omega
    · unfold MboxInv
      cases haw : isAwait s.ctrl with
      | none =>
        rw [haw] at mbox
        obtain ⟨hmb, hnp⟩ := mbox
        simp only [MboxShape]
        refine ⟨hmb, ?_⟩
        apply noProbing_of_set
        · simp
        · intro i hi _
          exact hnp i hi
      | some free =>
        rw [haw] at mbox
        simp only [MboxShape]
        rcases mbox with ⟨hmbnone, ⟨hpos, hlastp⟩, hfront⟩ | ⟨hpos, hmbsome, hnp⟩
        · left
          have hklast : k ≠ s.workers.length - 1 := by
            intro habs
            subst habs
            exact nomatch (hp.symm.trans hlastp)
          refine ⟨hmbnone, ⟨by simpa using hpos, ?_⟩, ?_⟩
          · simp only [List.get_eq_getElem, List.length_set, List.getElem_set, if_neg hklast]
            simpa using hlastp
          · apply frontNoProbing_of_set
            · simp
            · exact hfront
        · right
          refine ⟨by simpa using hpos, ?_, ?_⟩
          · simp only [List.get_eq_getElem, List.length_set, List.getElem_set]
            split
            · next heq =>
              subst heq
              simpa using hmbsome
            · next hne =>
              simpa using hmbsome
          · apply noProbing_of_set
            · simp
            · intro i hi _
              exact hnp i hi
  | drainPoll h ht =>
    exact ⟨tok_le, tok_eq, fifo, fin_tok, mbox⟩
  | drainDone h ht =>
    rw [h] at tok_eq fifo mbox
    refine ⟨tok_le, ?_, ?_, fun _ => ht, mbox⟩
    · simpa [ctrlPending] using tok_eq
    · simpa [ctrlHeld] using fifo

/-- The `(job id, bound device)` view of the spawned-worker list, in spawn
order. -/
def launchedJobs (s : MState) : List (Nat × Nat) :=
  s.workers.map (fun w => (w.job, w.device))

theorem map_job_eq_of_launchedJobs_eq {s t : MState}
    (h : launchedJobs t = launchedJobs s) :
    t.workers.map Worker.job = s.workers.map Worker.job := by
  have h2 := congrArg (List.map Prod.fst) h
  simpa [launchedJobs, List.map_map, Function.comp] using h2

/-- Any step taken from inside the headroom wait loop: no worker is spawned,
and the controller either stays in the loop with the same memory sample,
aborts on a failed re-query, or exits to the top of the admission loop —
the latter only when its current reading shows `3 * m ≤ free`. -/
theorem waiting_step {cfg : Config} {s t : MState} {free m : Nat} (hstep : Step cfg s t)
    (h2 : s.ctrl = .waiting free m) :
    launchedJobs t = launchedJobs s ∧
    ((∃ free2, t.ctrl = .waiting free2 m) ∨ t.ctrl = .aborted false [] ∨
      (t.ctrl = .checkQueue ∧ 3 * m ≤ free)) := by
  cases hstep with
  | enqueue j => exact ⟨rfl, Or.inl ⟨free, h2⟩⟩
  | toDrain h hq =>
    rw [h2] at h
    exact nomatch h
  | acquire h hq ht =>
    rw [h2] at h
    exact nomatch h
  | getJob j rest h hq =>
    rw [h2] at h
    exact nomatch h
  | queryOk j free2 idx h =>
    rw [h2] at h
    exact nomatch h
  | queryFail j h =>
    rw [h2] at h
    exact nomatch h
  | spawnWorker j idx free2 h =>
    rw [h2] at h
    exact nomatch h
  | publish k hk hp hm =>
    refine ⟨?_, Or.inl ⟨free, h2⟩⟩
    exact map_set_phase (fun w => (w.job, w.device)) (fun w p => rfl) s.workers k hk .running
  | receive free2 m2 h hm =>
    rw [h2] at h
    exact nomatch h
  | requeryOk free2 m2 free3 idx3 h hlt =>
    rw [h2] at h
    injection h with ha hb
    subst ha
    subst hb
    exact ⟨rfl, Or.inl ⟨free3, rfl⟩⟩
  | requeryFail free2 m2 h _hlt =>
    exact ⟨rfl, Or.inr (Or.inl rfl)⟩
  | waitDone free2 m2 h hge =>
    rw [h2] at h
    injection h with ha hb
    subst ha
    subst hb
    exact ⟨rfl, Or.inr (Or.inr ⟨rfl, by omega⟩)⟩
  | release k hk hp ht =>
    refine ⟨?_, Or.inl ⟨free, h2⟩⟩
    exact map_set_phase (fun w => (w.job, w.device)) (fun w p => rfl) s.workers k hk .done
  | drainPoll h ht =>
    rw [h2] at h
    exact nomatch h
  | drainDone h ht =>
    rw [h2] at h
    exact nomatch h

/-- The aborted controller is a sink: once `gpu_resources` has raised, no
step resumes the admission loop, no job is ever spawned again, and the
error is never retried. -/
theorem aborted_step {cfg : Config} {s t : MState} {b : Bool} {lost : List Nat}
    (hstep : Step cfg s t) (h2 : s.ctrl = .aborted b lost) :
    t.ctrl = .aborted b lost ∧ launchedJobs t = launchedJobs s := by
  cases hstep with
  | enqueue j => exact ⟨h2, rfl⟩
  | toDrain h hq =>
    rw [h2] at h
    exact nomatch h
  | acquire h hq ht =>
    rw [h2] at h
    exact nomatch h
  | getJob j rest h hq =>
    rw [h2] at h
    exact nomatch h
  | queryOk j free2 idx h =>
    rw [h2] at h
    exact nomatch h
  | queryFail j h =>
    rw [h2] at h
    exact nomatch h
  | spawnWorker j idx free2 h =>
    rw [h2] at h
    exact nomatch h
  | publish k hk hp hm =>
    exact ⟨h2, map_set_phase (fun w => (w.job, w.device)) (fun w p => rfl) s.workers k hk .running⟩
  | receive free2 m2 h hm =>
    rw [h2] at h
    exact nomatch h
  | requeryOk free2 m2 free3 idx3 h hlt =>
    rw [h2] at h
    exact nomatch h
  | requeryFail free2 m2 h hlt =>
    rw [h2] at h
    exact nomatch h
  | waitDone free2 m2 h hge =>
    rw [h2] at h
    exact nomatch h
  | release k hk hp ht =>
    exact ⟨h2, map_set_phase (fun w => (w.job, w.device)) (fun w p => rfl) s.workers k hk .done⟩
  | drainPoll h ht =>
    rw [h2] at h
    exact nomatch h
  | drainDone h ht =>
    rw [h2] at h
    exact nomatch h

/-- Along every step, the already-spawned workers keep their job ids and
their one-time device bindings; new workers are only appended. -/
theorem step_launchedJobs_mono {cfg : Config} {s t : MState} (hstep : Step cfg s t) :
    launchedJobs s <+: launchedJobs t := by
  cases hstep with
  | spawnWorker j idx free h =>
    simp only [launchedJobs, List.map_append]
    exact List.prefix_append _ _
  | publish k hk hp hm =>
    rw [show launchedJobs { s with
          mailbox := some (cfg.mem (s.workers.get ⟨k, hk⟩).job),
          workers := s.workers.set k
            ⟨(s.workers.get ⟨k, hk⟩).job, (s.workers.get ⟨k, hk⟩).device, .running⟩ } =
        launchedJobs s from map_set_phase (fun w => (w.job, w.device)) (fun w p => rfl) s.workers k hk .running]
  | release k hk hp ht =>
    rw [show launchedJobs { s with
          tokens := s.tokens - 1,
          workers := s.workers.set k
            ⟨(s.workers.get ⟨k, hk⟩).job, (s.workers.get ⟨k, hk⟩).device, .done⟩ } =
        launchedJobs s from map_set_phase (fun w => (w.job, w.device)) (fun w p => rfl) s.workers k hk .done]
  | enqueue j => exact List.prefix_rfl
  | toDrain h hq => exact List.prefix_rfl
  | acquire h hq ht => exact List.prefix_rfl
  | getJob j rest h hq => exact List.prefix_rfl
  | queryOk j free idx h => exact List.prefix_rfl
  | queryFail j h => exact List.prefix_rfl
  | receive free m h hm => exact List.prefix_rfl
  | requeryOk free m free2 idx2 h hlt => exact List.prefix_rfl
  | requeryFail free m h hlt => exact List.prefix_rfl
  | waitDone free m h hge => exact List.prefix_rfl
  | drainPoll h ht => exact List.prefix_rfl
  | drainDone h ht => exact List.prefix_rfl

/-- Trace property of the headroom wait loop: starting from a waiting state
whose reading lacks headroom, every execution either is still waiting on
the same sample (no new spawn), has aborted (no new spawn), or passed
through a state, before any new spawn, in which a re-query reported
`3 * m ≤ free`. -/
theorem waiting_trace {cfg : Config} {s t : MState} {free m : Nat}
    (hpath : Path cfg s t) (hs : s.ctrl = .waiting free m) (hlt : free < 3 * m) :
    ((∃ free2, t.ctrl = .waiting free2 m) ∧ launchedJobs t = launchedJobs s) ∨
    (t.ctrl = .aborted false [] ∧ launchedJobs t = launchedJobs s) ∨
    (∃ u free3, Path cfg s u ∧ Path cfg u t ∧ u.ctrl = .waiting free3 m ∧ 3 * m ≤ free3 ∧
      launchedJobs u = launchedJobs s) := by
  induction hpath with
  | refl => exact Or.inl ⟨⟨free, hs⟩, rfl⟩
  | @tail t' u p st ih =>
    rcases ih with ⟨⟨free2, hctrl⟩, hjobs⟩ | ⟨hctrl, hjobs⟩ | ⟨u', free3, p1, p2, hc, hge, hj⟩
    · obtain ⟨hju, htri⟩ := waiting_step st hctrl
      rcases htri with ⟨free4, hc4⟩ | hc4 | ⟨hc4, hge4⟩
      · exact Or.inl ⟨⟨free4, hc4⟩, hju.trans hjobs⟩
      · exact Or.inr (Or.inl ⟨hc4, hju.trans hjobs⟩)
      · exact Or.inr (Or.inr ⟨t', free2, p, Path.tail (Path.refl t') st, hctrl, hge4, hjobs⟩)
    · obtain ⟨hc', hju⟩ := aborted_step st hctrl
      exact Or.inr (Or.inl ⟨hc', hju.trans hjobs⟩)
    · exact Or.inr (Or.inr ⟨u', free3, p1, Path.tail p2 st, hc, hge, hj⟩)

/-- Every reachable state satisfies the invariant. -/
theorem inv_reachable {cfg : Config} {s : MState} (h : Reachable cfg s) : Inv cfg s := by
  induction h with
  | refl => exact inv_init cfg
  | tail _ hstep ih => exact inv_step ih hstep

/-! ## Properties of the Python `max` / `list.index` models -/

theorem listMax_eq_none {l : List Nat} (h : listMax l = none) : l = [] := by
  cases l with
  | nil => rfl
  | cons x xs =>
    exfalso
    simp only [listMax] at h
    cases hxs : listMax xs with
    | none => rw [hxs] at h; exact nomatch h
    | some m2 => rw [hxs] at h; exact nomatch h

theorem listMax_mem : ∀ {l : List Nat} {m : Nat}, listMax l = some m → m ∈ l := by
  intro l
  induction l with
  | nil => intro m h; exact nomatch h
  | cons x xs ih =>
    intro m h
    simp only [listMax] at h
    cases hxs : listMax xs with
    | none =>
      rw [hxs] at h
      injection h with h
      subst h
      exact List.mem_cons_self x xs
    | some m2 =>
      rw [hxs] at h
      injection h with h
      subst h
      split
      · exact List.mem_cons_of_mem x (ih hxs)
      · exact List.mem_cons_self x xs

theorem le_listMax : ∀ {l : List Nat} {m x : Nat}, listMax l = some m → x ∈ l → x ≤ m := by
  intro l
  induction l with
  | nil => intro m x h hx; exact nomatch hx
  | cons y xs ih =>
    intro m x h hx
    simp only [listMax] at h
    cases hxs : listMax xs with
    | none =>
      rw [hxs] at h
      injection h with h
      subst h
      rcases List.mem_cons.mp hx with hx | hx
      · omega
      · rw [listMax_eq_none hxs] at hx
        exact nomatch hx
    | some m2 =>
      rw [hxs] at h
      injection h with h
      subst h
      rcases List.mem_cons.mp hx with hx | hx
      · split <;> omega
      · have := ih hxs hx
        split <;> omega

theorem listMax_isSome {l : List Nat} (h : l ≠ []) : ∃ m, listMax l = some m := by
  cases l with
  | nil => exact absurd rfl h
  | cons x xs =>
    simp only [listMax]
    cases listMax xs with
    | none => exact ⟨x, rfl⟩
    | some m2 => exact ⟨if x ≤ m2 then m2 else x, rfl⟩

theorem listIndex_spec {α : Type} [DecidableEq α] :
    ∀ {l : List α} {a : α}, a ∈ l →
      ∃ i, listIndex a l = some i ∧ l.get? i = some a ∧ ∀ k, k < i → l.get? k ≠ some a := by
  intro l
  induction l with
  | nil => intro a ha; exact nomatch ha
  | cons b xs ih =>
    intro a ha
    by_cases hb : b = a
    · subst hb
      exact ⟨0, by simp [listIndex], by simp, fun k hk => by omega⟩
    · have ha' : a ∈ xs := by
        rcases List.mem_cons.mp ha with h | h
        · exact absurd h.symm hb
        · exact h
      obtain ⟨i, hi, hget, hmin⟩ := ih ha'
      refine ⟨i + 1, ?_, by simpa using hget, ?_⟩
      · simp [listIndex, hb, hi]
      · intro k hk
        cases k with
        | zero => simpa using fun habs => hb habs
        | succ k2 =>
          have := hmin k2 (by omega)
          simpa using this

theorem listIndex_eq_none {α : Type} [DecidableEq α] :
    ∀ {l : List α} {a : α}, a ∉ l → listIndex a l = none := by
  intro l
  induction l with
  | nil => intro a _; rfl
  | cons b xs ih =>
    intro a ha
    have hb : ¬ b = a := fun h => ha (h ▸ List.mem_cons_self b xs)
    have ha' : a ∉ xs := fun h => ha (List.mem_cons_of_mem b h)
    simp [listIndex, hb, ih ha']

/-! ## Probe lemmas -/

/-- After any single probe the persisted input parameters are back to their
pre-probe values: the restore write (`sim.input_file({...})`, line 346)
happens before the marker scan, so it is reached on both the success and
the fault path. -/
theorem get_sim_mem_input (engine : SimInput → String) (s : SimState) :
    (get_sim_mem engine s).1.input = s.input := by
  simp only [get_sim_mem]
  split
  · rfl
  · split
    · rfl
    · rfl

/-- The probe result depends on the job only through its persisted input. -/
theorem get_sim_mem_snd_congr (engine : SimInput → String) (s1 s2 : SimState)
    (h : s1.input = s2.input) : (get_sim_mem engine s1).2 = (get_sim_mem engine s2).2 := by
  simp only [get_sim_mem, h]
  split
  · next heq => simp [heq]
  · next memIdx heq =>
    split
    · next heq2 => simp [heq, heq2]
    · next v heq2 => simp [heq, heq2]

/-! ## Claims about `get_sim_mem` and `gpu_resources` -/

/-- C4: for every job whose engine diagnostics contain the memory marker,
the Memory Probe is idempotent — probing twice on an unmodified job yields
the same measured footprint — and after any single probe the job's
persisted step-count and last-conf output-path parameters (indeed the whole
persisted input) equal their pre-probe values: the probe overrides
`steps` to `"0"` and `lastconf_file` to `"temp"`, then restores both. -/
theorem C4_probe_idempotent_restores (engine : SimInput → String) (s : SimState)
    (hmarker : "memory:" ∈ splitWs (engine (probeInput s.input))) :
    ((get_sim_mem engine s).1.input.steps = s.input.steps ∧
      (get_sim_mem engine s).1.input.lastconf_file = s.input.lastconf_file ∧
      (get_sim_mem engine s).1.input = s.input) ∧
    (get_sim_mem engine ((get_sim_mem engine s).1)).2 = (get_sim_mem engine s).2 := by
  have hrestore := get_sim_mem_input engine s
  exact ⟨⟨by rw [hrestore], by rw [hrestore], hrestore⟩,
    get_sim_mem_snd_congr engine _ s hrestore⟩

theorem C4_witness :
    ("memory:" ∈ splitWs (engMarker (probeInput sim0.input))) ∧
    (((get_sim_mem engMarker sim0).1.input.steps = sim0.input.steps ∧
        (get_sim_mem engMarker sim0).1.input.lastconf_file = sim0.input.lastconf_file ∧
        (get_sim_mem engMarker sim0).1.input = sim0.input) ∧
      (get_sim_mem engMarker ((get_sim_mem engMarker sim0).1)).2 =
        (get_sim_mem engMarker sim0).2) :=
  ⟨by decide, C4_probe_idempotent_restores engMarker sim0 (by decide)⟩

/-- C8: for every probe invocation whose engine diagnostic text does not
contain the marker token `memory:`, the probe raises an unrecovered fault
(`ValueError` from `err_split.index('memory:')`) that propagates uncaught:
`worker_job` does not catch it (the worker publishes nothing and never
reaches its run or its slot release), and the probe consults the engine
exactly once, on the zero-step probe configuration, with no retry. -/
theorem C8_probe_parse_fault (engine : SimInput → String) (s : SimState)
    (hmarker : "memory:" ∉ splitWs (engine (probeInput s.input))) :
    (get_sim_mem engine s).2 = none ∧
    worker_job engine s = none ∧
    (∀ engine2 : SimInput → String,
      engine2 (probeInput s.input) = engine (probeInput s.input) →
      get_sim_mem engine2 s = get_sim_mem engine s) := by
  have hidx : listIndex "memory:" (splitWs (engine (probeInput s.input))) = none :=
    listIndex_eq_none hmarker
  simp only [probeInput] at hidx
  have h1 : (get_sim_mem engine s).2 = none := by
    simp only [get_sim_mem, hidx]
  refine ⟨h1, ?_, ?_⟩
  · unfold worker_job
    rcases hgs : get_sim_mem engine s with ⟨s2, r⟩
    rw [hgs] at h1
    simp only at h1
    rw [h1]
  · intro engine2 h2
    simp only [probeInput] at h2
    simp only [get_sim_mem, h2]

theorem C8_witness :
    ("memory:" ∉ splitWs (engNoMarker (probeInput sim0.input))) ∧
    ((get_sim_mem engNoMarker sim0).2 = none ∧
      worker_job engNoMarker sim0 = none ∧
      (∀ engine2 : SimInput → String,
        engine2 (probeInput sim0.input) = engNoMarker (probeInput sim0.input) →
        get_sim_mem engine2 sim0 = get_sim_mem engNoMarker sim0)) :=
  ⟨by decide, C8_probe_parse_fault engNoMarker sim0 (by decide)⟩

/-- C10: when the probe faults because the marker is absent, the job's
original step-count and output-path parameters have already been restored
(the restore at line 346 precedes the marker scan at line 349), but the
throwaway artifact `temp` is still present (its deletion at line 352
follows the marker scan and is skipped by the exception). -/
theorem C10_fault_restored_temp_left (engine : SimInput → String) (s : SimState)
    (hmarker : "memory:" ∉ splitWs (engine (probeInput s.input))) :
    (get_sim_mem engine s).1.input = s.input ∧
    "temp" ∈ (get_sim_mem engine s).1.files := by
  have hidx : listIndex "memory:" (splitWs (engine (probeInput s.input))) = none :=
    listIndex_eq_none hmarker
  simp only [probeInput] at hidx
  refine ⟨get_sim_mem_input engine s, ?_⟩
  simp only [get_sim_mem, hidx]
  simp [List.mem_insert_iff]

theorem C10_witness :
    ("memory:" ∉ splitWs (engNoMarker (probeInput sim0.input))) ∧
    ((get_sim_mem engNoMarker sim0).1.input = sim0.input ∧
      "temp" ∈ (get_sim_mem engNoMarker sim0).1.files) :=
  ⟨by decide, C10_fault_restored_temp_left engNoMarker sim0 (by decide)⟩

/-- C5: for every command output whose per-device lines (after discarding
the header line) parse to a non-empty list of free-memory readings,
`gpu_resources` returns the maximum reading together with the index of a
device holding that maximum (the first such index, as Python
`list.index`). -/
theorem C5_gpu_resources_returns_max (raw : String) (vals : List Nat)
    (hparse : ((output_to_list raw).drop 1).mapM parseMemLine = some vals)
    (hne : vals ≠ []) :
    ∃ m i, gpu_resources (.ok raw) = .ok (m, i) ∧
      m ∈ vals ∧ (∀ x ∈ vals, x ≤ m) ∧
      vals.get? i = some m ∧ ∀ k, k < i → vals.get? k ≠ some m := by
  obtain ⟨m, hm⟩ := listMax_isSome hne
  obtain ⟨i, hi, hget, hmin⟩ := listIndex_spec (listMax_mem hm)
  refine ⟨m, i, ?_, listMax_mem hm, fun x hx => le_listMax hm hx, hget, hmin⟩
  simp only [gpu_resources, hparse, hm, hi]

theorem C5_witness :
    (((output_to_list "memory.free [MiB]\n3087 MiB\n7194 MiB\n7194 MiB\n").drop 1).mapM
        parseMemLine = some [3087, 7194, 7194]) ∧
    (([3087, 7194, 7194] : List Nat) ≠ []) ∧
    (∃ m i, gpu_resources (.ok "memory.free [MiB]\n3087 MiB\n7194 MiB\n7194 MiB\n") =
        .ok (m, i) ∧
      m ∈ ([3087, 7194, 7194] : List Nat) ∧
      (∀ x ∈ ([3087, 7194, 7194] : List Nat), x ≤ m) ∧
      ([3087, 7194, 7194] : List Nat).get? i = some m ∧
      ∀ k, k < i → ([3087, 7194, 7194] : List Nat).get? k ≠ some m) :=
  ⟨by decide, by decide,
    C5_gpu_resources_returns_max "memory.free [MiB]\n3087 MiB\n7194 MiB\n7194 MiB\n"
      [3087, 7194, 7194] (by decide) (by decide)⟩

/-! ## The demo trace is an actual execution -/

theorem demo6_reachable : Reachable demoCfg demo6 := by
  have p1 : Path demoCfg init demo1 := Path.tail (Path.refl init) (Step.enqueue init 7)
  have p2 : Path demoCfg init demo2 :=
    Path.tail p1 (Step.acquire demo1 rfl (by decide) (by decide))
  have p3 : Path demoCfg init demo3 := Path.tail p2 (Step.getJob demo2 7 [] rfl rfl)
  have p4 : Path demoCfg init demo4 := Path.tail p3 (Step.queryOk demo3 7 9000 0 rfl)
  have p5 : Path demoCfg init demo5 := Path.tail p4 (Step.spawnWorker demo4 7 0 9000 rfl)
  exact Path.tail p5 (Step.publish demo5 0 (by decide) rfl rfl)

theorem demo7_reachable : Reachable demoCfg demo7 := by
  refine Path.tail demo6_reachable ?_
  have hstep := @Step.receive demoCfg demo6 9000 5000 rfl rfl
  rwa [if_pos (by decide : (9000 : Nat) < 3 * 5000)] at hstep

theorem demo8_reachable : Reachable demoCfg demo8 :=
  Path.tail demo7_reachable (Step.requeryOk demo7 9000 5000 20000 1 rfl (by decide))

theorem demo9_reachable : Reachable demoCfg demo9 :=
  Path.tail demo8_reachable (Step.waitDone demo8 20000 5000 rfl (by decide))

theorem demo10_reachable : Reachable demoCfg demo10 :=
  Path.tail demo9_reachable (Step.release demo9 0 (by decide) rfl (by decide))

theorem demo11_reachable : Reachable demoCfg demo11 :=
  Path.tail demo10_reachable (Step.toDrain demo10 rfl rfl)

/-! ## Claims about the admission controller -/

/-- C1: in every reachable state of a run with pool capacity `N` — whatever
jobs were submitted — at most `N` spawned workers hold slot tokens
(are running), and the number of outstanding admitted-but-not-yet-released
slot tokens in `process_queue` never exceeds `N`. -/
theorem C1_bounded_concurrency (cfg : Config) (s : MState) (h : Reachable cfg s) :
    runningCount s.workers ≤ cfg.N ∧ s.tokens ≤ cfg.N := by
  obtain ⟨tok_le, tok_eq, -, -, -⟩ := inv_reachable h
  exact ⟨by omega, tok_le⟩

theorem C1_witness :
    runningCount demo6.workers ≤ demoCfg.N ∧ demo6.tokens ≤ demoCfg.N :=
  C1_bounded_concurrency demoCfg demo6 demo6_reachable

/-- C3: job launches occur in FIFO submission order: in every reachable
state the list of spawned jobs (in spawn order) is a prefix of the list of
enqueued jobs (in submission order); hence if A was enqueued before B and
B has been launched, A was launched earlier, at A's own queue position. -/
theorem C3_fifo_launch_order (cfg : Config) (s : MState) (h : Reachable cfg s) :
    (s.workers.map Worker.job) <+: s.enqueued ∧
    (∀ i j : Nat, i ≤ j → j < (s.workers.map Worker.job).length →
      (s.workers.map Worker.job).get? i = s.enqueued.get? i) := by
  obtain ⟨-, -, fifo, -, -⟩ := inv_reachable h
  have hpre : (s.workers.map Worker.job) <+: s.enqueued := ⟨_, fifo⟩
  refine ⟨hpre, ?_⟩
  intro i j hij hj
  obtain ⟨t, ht⟩ := hpre
  rw [← ht]
  rw [List.get?_append (by omega)]

theorem C3_witness :
    (demo6.workers.map Worker.job) <+: demo6.enqueued ∧
    (∀ i j : Nat, i ≤ j → j < (demo6.workers.map Worker.job).length →
      (demo6.workers.map Worker.job).get? i = demo6.enqueued.get? i) :=
  C3_fifo_launch_order demoCfg demo6 demo6_reachable

/-- C6: once the Job Queue is empty and every launched worker has released
its slot token, the outstanding-token count is zero and the controller can
immediately report overall completion (`drainDone`); the controller reports
completion only when the count is zero (`drainDone` is guarded by
`tokens = 0`, and `finished` states always have zero tokens), and while the
count is positive it polls at the fixed interval of 1 time unit. -/
theorem C6_drain_completion (cfg : Config) (s : MState) (h : Reachable cfg s) :
    (s.ctrl = .draining → (∀ w ∈ s.workers, w.phase = .done) →
      s.tokens = 0 ∧ Step cfg s { s with ctrl := .finished }) ∧
    (s.ctrl = .finished → s.tokens = 0) ∧
    (s.ctrl = .draining → 0 < s.tokens → Step cfg s { s with clock := s.clock + 1 }) := by
  obtain ⟨-, tok_eq, -, fin_tok, -⟩ := inv_reachable h
  refine ⟨?_, fin_tok, ?_⟩
  · intro hc hall
    have hrc : runningCount s.workers = 0 := by
      apply List.countP_eq_zero.mpr
      intro w hw
      rw [hall w hw]
      simp [WPhase.isActive]
    rw [hc] at tok_eq
    simp only [ctrlPending] at tok_eq
    have ht0 : s.tokens = 0 := by omega
    exact ⟨ht0, Step.drainDone s hc ht0⟩
  · intro hc ht
    exact Step.drainPoll s hc ht

theorem C6_witness :
    demo11.tokens = 0 ∧ Step demoCfg demo11 { demo11 with ctrl := .finished } :=
  (C6_drain_completion demoCfg demo11 demo11_reachable).1 rfl (by decide)

/-- C7: a failing device-free-memory command is fatal: `gpu_resources`
turns the command's non-zero exit into a raised `RuntimeError`; from the
admission loop both query sites (the per-job query and the wait-loop
re-query) step into the aborted state; and the aborted state is a sink —
no later step resumes the admission loop, spawns a worker, or retries the
query anywhere in the scheduling core. -/
theorem C7_query_failure_fatal (cfg : Config) :
    (∀ code : Nat, gpu_resources (.error code) = .error (.runtimeError code)) ∧
    (∀ s : MState, ∀ j : Nat, s.ctrl = .query j →
      Step cfg s { s with ctrl := .aborted true [j] }) ∧
    (∀ s : MState, ∀ free m : Nat, s.ctrl = .waiting free m → free < 3 * m →
      Step cfg s { s with ctrl := .aborted false [] }) ∧
    (∀ s t : MState, ∀ b : Bool, ∀ lost : List Nat,
      Step cfg s t → s.ctrl = .aborted b lost →
      t.ctrl = .aborted b lost ∧ launchedJobs t = launchedJobs s) := by
  refine ⟨fun code => rfl, ?_, ?_, ?_⟩
  · intro s j h
    exact Step.queryFail s j h
  · intro s free m h hlt
    exact Step.requeryFail s free m h hlt
  · intro s t b lost hstep h2
    exact aborted_step hstep h2

theorem C7_witness :
    gpu_resources (.error 1) = .error (.runtimeError 1) ∧
    Step demoCfg demo3 { demo3 with ctrl := .aborted true [7] } ∧
    ({ demoAborted with
        queue := demoAborted.queue ++ [9],
        enqueued := demoAborted.enqueued ++ [9] }.ctrl = .aborted true [7] ∧
      launchedJobs { demoAborted with
        queue := demoAborted.queue ++ [9],
        enqueued := demoAborted.enqueued ++ [9] } = launchedJobs demoAborted) :=
  ⟨(C7_query_failure_fatal demoCfg).1 1,
    (C7_query_failure_fatal demoCfg).2.1 demo3 7 rfl,
    (C7_query_failure_fatal demoCfg).2.2.2 demoAborted _ true [7]
      (Step.enqueue demoAborted 9) rfl⟩

/-- C9: the controller binds a job's device index exactly once, at spawn
time: along every step the already-spawned workers keep their `(job,
device)` bindings (new workers are only appended); every step taken during
the headroom wait loop leaves the launched jobs — ids and device bindings —
completely unchanged; and the wait loop's re-queries may return any fresh
device index, which is discarded without re-binding any job. -/
theorem C9_device_bound_once (cfg : Config) :
    (∀ s t : MState, Step cfg s t → launchedJobs s <+: launchedJobs t) ∧
    (∀ s t : MState, ∀ free m : Nat, Step cfg s t → s.ctrl = .waiting free m →
      launchedJobs t = launchedJobs s) ∧
    (∀ s : MState, ∀ free m free2 idx2 : Nat, s.ctrl = .waiting free m → free < 3 * m →
      Step cfg s { s with ctrl := .waiting free2 m, clock := s.clock + 5 }) := by
  refine ⟨?_, ?_, ?_⟩
  · intro s t hstep
    exact step_launchedJobs_mono hstep
  · intro s t free m hstep h2
    exact (waiting_step hstep h2).1
  · intro s free m free2 idx2 h2 hlt
    exact Step.requeryOk s free m free2 idx2 h2 hlt

theorem C9_witness :
    launchedJobs demo4 <+: launchedJobs demo5 ∧
    launchedJobs demo8 = launchedJobs demo7 ∧
    Step demoCfg demo7 { demo7 with ctrl := .waiting 20000 5000, clock := demo7.clock + 5 } :=
  ⟨(C9_device_bound_once demoCfg).1 demo4 demo5 (Step.spawnWorker demo4 7 0 9000 rfl),
    (C9_device_bound_once demoCfg).2.1 demo7 demo8 9000 5000
      (Step.requeryOk demo7 9000 5000 20000 1 rfl (by decide)) rfl,
    (C9_device_bound_once demoCfg).2.2 demo7 9000 5000 20000 1 rfl (by decide)⟩

/-- C2: the headroom wait protocol.  (i) While the controller blocks in
`gpu_memory_queue.get()`, the sample it receives is the probed footprint of
the job it just launched, and if the reading taken at the launch decision
is below 3 × that sample the controller enters the wait loop.  (ii) From a
waiting state without headroom, every execution either is still waiting on
that same sample or has aborted — in both cases with no further job
admitted — or passed, before any further admission, through a state in
which a Device Monitor re-query reported at least 3 × the sample; only then
does the admission loop proceed.  (iii) Every wait-loop iteration that
changes the controller's reading sleeps exactly 5 time units, and (iv) the
loop exits to the admission loop only when the current reading shows
`3 * m ≤ free`. -/
theorem C2_headroom_wait (cfg : Config) :
    (∀ s : MState, ∀ free m : Nat, Reachable cfg s → s.ctrl = .awaitMem free →
      s.mailbox = some m →
      (∃ h2 : 0 < s.workers.length,
        m = cfg.mem ((s.workers.get ⟨s.workers.length - 1, by omega⟩).job)) ∧
      (free < 3 * m → Step cfg s { s with mailbox := none, ctrl := .waiting free m })) ∧
    (∀ s t : MState, ∀ free m : Nat, Path cfg s t → s.ctrl = .waiting free m →
      free < 3 * m →
      ((∃ free2, t.ctrl = .waiting free2 m) ∧ launchedJobs t = launchedJobs s) ∨
      (t.ctrl = .aborted false [] ∧ launchedJobs t = launchedJobs s) ∨
      (∃ u free3, Path cfg s u ∧ Path cfg u t ∧ u.ctrl = .waiting free3 m ∧
        3 * m ≤ free3 ∧ launchedJobs u = launchedJobs s)) ∧
    (∀ s t : MState, ∀ free free2 m : Nat, Step cfg s t → s.ctrl = .waiting free m →
      t.ctrl = .waiting free2 m → free2 = free ∨ t.clock = s.clock + 5) ∧
    (∀ s t : MState, ∀ free m : Nat, Step cfg s t → s.ctrl = .waiting free m →
      t.ctrl = .checkQueue → 3 * m ≤ free) := by
  refine ⟨?_, ?_, ?_, ?_⟩
  · intro s free m hreach hctrl hmb
    obtain ⟨-, -, -, -, mbox⟩ := inv_reachable hreach
    unfold MboxInv at mbox
    rw [hctrl] at mbox
    simp only [isAwait, MboxShape] at mbox
    rcases mbox with ⟨hmbnone, -, -⟩ | ⟨hpos, hmbsome, -⟩
    · rw [hmb] at hmbnone
      exact nomatch hmbnone
    · constructor
      · refine ⟨hpos, ?_⟩
        have := hmb.symm.trans hmbsome
        injection this
      · intro hlt
        have hstep := @Step.receive cfg s free m hctrl hmb
        rwa [if_pos hlt] at hstep
  · intro s t free m hpath hctrl hlt
    exact waiting_trace hpath hctrl hlt
  · intro s t free free2 m hstep h2 hc2
    cases hstep with
    | enqueue j =>
      have := h2.symm.trans hc2
      injection this with ha hb
      exact Or.inl ha.symm
    | toDrain h hq =>
      rw [h2] at h
      exact nomatch h
    | acquire h hq ht =>
      rw [h2] at h
      exact nomatch h
    | getJob j rest h hq =>
      rw [h2] at h
      exact nomatch h
    | queryOk j free3 idx h =>
      rw [h2] at h
      exact nomatch h
    | queryFail j h =>
      rw [h2] at h
      exact nomatch h
    | spawnWorker j idx free3 h =>
      rw [h2] at h
      exact nomatch h
    | publish k hk hp hm =>
      have := h2.symm.trans hc2
      injection this with ha hb
      exact Or.inl ha.symm
    | receive free3 m3 h hm =>
      rw [h2] at h
      exact nomatch h
    | requeryOk free3 m3 free4 idx4 h hlt =>
      exact Or.inr rfl
    | requeryFail free3 m3 h hlt =>
      exact nomatch hc2
    | waitDone free3 m3 h hge =>
      exact nomatch hc2
    | release k hk hp ht =>
      have := h2.symm.trans hc2
      injection this with ha hb
      exact Or.inl ha.symm
    | drainPoll h ht =>
      rw [h2] at h
      exact nomatch h
    | drainDone h ht =>
      rw [h2] at h
      exact nomatch h
  · intro s t free m hstep h2 hc2
    cases hstep with
    | enqueue j =>
      have := h2.symm.trans hc2
      exact nomatch this
    | toDrain h hq =>
      rw [h2] at h
      exact nomatch h
    | acquire h hq ht =>
      rw [h2] at h
      exact nomatch h
    | getJob j rest h hq =>
      rw [h2] at h
      exact nomatch h
    | queryOk j free3 idx h =>
      rw [h2] at h
      exact nomatch h
    | queryFail j h =>
      rw [h2] at h
      exact nomatch h
    | spawnWorker j idx free3 h =>
      rw [h2] at h
      exact nomatch h
    | publish k hk hp hm =>
      have := h2.symm.trans hc2
      exact nomatch this
    | receive free3 m3 h hm =>
      rw [h2] at h
      exact nomatch h
    | requeryOk free3 m3 free4 idx4 h hlt =>
      exact nomatch hc2
    | requeryFail free3 m3 h hlt =>
      exact nomatch hc2
    | waitDone free3 m3 h hge =>
      rw [h2] at h
      injection h with ha hb
      subst ha
      subst hb
      omega
    | release k hk hp ht =>
      have := h2.symm.trans hc2
      exact nomatch this
    | drainPoll h ht =>
      rw [h2] at h
      exact nomatch h
    | drainDone h ht =>
      rw [h2] at h
      exact nomatch h

theorem C2_witness :
    ((∃ h2 : 0 < demo6.workers.length,
        (5000 : Nat) = demoCfg.mem ((demo6.workers.get
          ⟨demo6.workers.length - 1, by omega⟩).job)) ∧
      ((9000 : Nat) < 3 * 5000 →
        Step demoCfg demo6 { demo6 with mailbox := none, ctrl := .waiting 9000 5000 })) ∧
    (((∃ free2, demo7.ctrl = .waiting free2 5000) ∧
        launchedJobs demo7 = launchedJobs demo7) ∨
      (demo7.ctrl = .aborted false [] ∧ launchedJobs demo7 = launchedJobs demo7) ∨
      (∃ u free3, Path demoCfg demo7 u ∧ Path demoCfg u demo7 ∧
        u.ctrl = .waiting free3 5000 ∧ 3 * 5000 ≤ free3 ∧
        launchedJobs u = launchedJobs demo7)) ∧
    ((20000 : Nat) = 9000 ∨ demo8.clock = demo7.clock + 5) ∧
    (3 * 5000 ≤ (20000 : Nat)) :=
  ⟨(C2_headroom_wait demoCfg).1 demo6 9000 5000 demo6_reachable rfl rfl,
    (C2_headroom_wait demoCfg).2.1 demo7 demo7 9000 5000 (Path.refl demo7) rfl (by decide),
    (C2_headroom_wait demoCfg).2.2.1 demo7 demo8 9000 20000 5000
      (Step.requeryOk demo7 9000 5000 20000 1 rfl (by decide)) rfl rfl,
    (C2_headroom_wait demoCfg).2.2.2 demo8 demo9 20000 5000
      (Step.waitDone demo8 20000 5000 rfl (by decide)) rfl rfl⟩

end OxdnaScheduling
